import Mathlib

/-!
Shallow embedding of the Electoral Commission core of the criptocracia
repository (src/ec/src/election.rs, src/ec/src/types.rs,
src/ec/src/database.rs) and proofs of the specification claims about it.

External dependencies of the source (the nostr key codec and the RSA
blind-signing primitive) are modelled by explicit parameters: a `KeyCodec`
stands for `nostr_sdk::PublicKey` parsing/normalisation, and the outcome of
`secret_key.blind_sign` is passed in as an `Option` value, since it depends
on the caller-supplied RNG.
-/

set_option maxHeartbeats 1000000

namespace Criptocracia

/-- `Status` from src/ec/src/election.rs: the four election states. -/
inductive Status
  | Open
  | InProgress
  | Finished
  | Canceled
deriving DecidableEq, Repr

/-- `Candidate` from src/ec/src/types.rs: an id (u8) and a display name. -/
structure Candidate where
  id : Nat
  name : String
deriving DecidableEq, Repr

/-- The derived `PartialEq` of `Candidate` in src/ec/src/types.rs compares
all fields: the id and the name. -/
def candidateEqb (c1 c2 : Candidate) : Bool :=
  (c1.id == c2.id) && (c1.name == c2.name)

/-- `Election` from src/ec/src/election.rs.  `authorized_voters` is the
`HashSet<String>` of still-authorized voter pubkeys (hex), `used_tokens`
the `HashSet<BigUint>` of spent token hashes, `votes` the `Vec<u8>` of
received candidate ids. -/
structure Election where
  id : String
  name : String
  authorized_voters : Finset String
  used_tokens : Finset Nat
  votes : List Nat
  candidates : List Candidate
  start_time : Nat
  end_time : Nat
  status : Status
  rsa_pub_key : String
deriving DecidableEq

/-- Model of the external `nostr_sdk::PublicKey` codec: `parseNpub` stands
for `PublicKey::parse(npub).map(to_hex)` on bech32 inputs, `parseHex` for
`PublicKey::from_hex(s).map(to_hex)` on hex inputs; `none` models a parse
error. -/
structure KeyCodec where
  parseNpub : String → Option String
  parseHex : String → Option String

/-- `voter_pk.starts_with("npub")` from the source, on the character list. -/
def startsWithNpub (s : String) : Bool :=
  match s.toList with
  | 'n' :: 'p' :: 'u' :: 'b' :: _ => true
  | _ => false

/-- The key-normalisation step shared by `register_voter` and `issue_token`:
bech32 inputs go through `PublicKey::parse`, other inputs through
`PublicKey::from_hex`; both are converted to hex. -/
def normalizeKey (kc : KeyCodec) (pk : String) : Option String :=
  if startsWithNpub pk then kc.parseNpub pk else kc.parseHex pk

/-- The error cases of `Election::issue_token`. -/
inductive IssueErr
  | invalidNpub
  | invalidHex
  | unauthorized
  | signingError
deriving DecidableEq, Repr

/-- The error cases of `Election::receive_vote`. -/
inductive VoteErr
  | notInProgress
  | duplicate
deriving DecidableEq, Repr

/-- `Election::new` from src/ec/src/election.rs.  The random nanoid is
passed in as the `id` argument. -/
def Election.new (id name : String) (candidates : List Candidate)
    (start_time duration : Nat) (rsa_pub_key : String) : Election :=
  { id := id
    name := name
    authorized_voters := ∅
    used_tokens := ∅
    votes := []
    candidates := candidates
    start_time := start_time
    end_time := start_time + duration
    status := Status.Open
    rsa_pub_key := rsa_pub_key }

/-- `ElectionRecord` from src/ec/src/database.rs (i64 fields as `Int`). -/
structure ElectionRecord where
  id : String
  name : String
  start_time : Int
  end_time : Int
  status : String
  rsa_pub_key : String
  created_at : Int
  updated_at : Int

/-- `CandidateRecord` from src/ec/src/database.rs. -/
structure CandidateRecord where
  id : Option Int
  election_id : String
  candidate_id : Int
  name : String
  vote_count : Int

/-- The status-string match in `Election::from_database`: any unrecognized
string falls through to `Status::Open`. -/
def parseStatus (s : String) : Status :=
  if s = "open" then Status.Open
  else if s = "in-progress" then Status.InProgress
  else if s = "finished" then Status.Finished
  else if s = "canceled" then Status.Canceled
  else Status.Open

/-- Value of one hexadecimal digit, `none` for a non-hex character. -/
def hexDigitVal (c : Char) : Option Nat :=
  if '0' ≤ c ∧ c ≤ '9' then some (c.toNat - '0'.toNat)
  else if 'a' ≤ c ∧ c ≤ 'f' then some (c.toNat - 'a'.toNat + 10)
  else if 'A' ≤ c ∧ c ≤ 'F' then some (c.toNat - 'A'.toNat + 10)
  else none

/-- Model of `BigUint::parse_bytes(token.as_bytes(), 16)`: parses a
non-empty all-hex string to its value, `none` otherwise. -/
def parseHexNat (s : String) : Option Nat :=
  match s.toList with
  | [] => none
  | cs =>
      cs.foldl
        (fun acc c => acc.bind (fun n => (hexDigitVal c).map (fun d => 16 * n + d)))
        (some 0)

/-- `Election::from_database` from src/ec/src/election.rs: restores an
election from persisted records; unrecognized status strings fall back to
`Open`, used-token strings that fail hex parsing are dropped, and the
`votes` vector starts empty. -/
def from_database (er : ElectionRecord) (crs : List CandidateRecord)
    (authorized_voters : List String) (used_tokens : List String) : Election :=
  { id := er.id
    name := er.name
    authorized_voters := authorized_voters.toFinset
    used_tokens := (used_tokens.filterMap parseHexNat).toFinset
    votes := []
    candidates := crs.map (fun c => { id := (c.candidate_id % 256).toNat, name := c.name })
    start_time := (er.start_time % (2 ^ 64 : Int)).toNat
    end_time := (er.end_time % (2 ^ 64 : Int)).toNat
    status := parseStatus er.status
    rsa_pub_key := er.rsa_pub_key }

/-- `Election::register_voter` from src/ec/src/election.rs: only while
`Open`; normalizes the key (dropping malformed input); inserts the hex
form if not already present. -/
def register_voter (kc : KeyCodec) (e : Election) (voter_pk : String) : Election :=
  if e.status ≠ Status.Open then e
  else
    match normalizeKey kc voter_pk with
    | none => e
    | some hex_pubkey =>
        if hex_pubkey ∈ e.authorized_voters then e
        else { e with authorized_voters := insert hex_pubkey e.authorized_voters }

/-- `Election::issue_token` from src/ec/src/election.rs.  `sign_result`
models the outcome of `secret_key.blind_sign(rng, blinded_h_n, options)`;
the function removes the normalized voter key from `authorized_voters`
before signing and does not restore it on signing failure.  No status
check is performed. -/
def issue_token (kc : KeyCodec) (e : Election) (voter_pk : String)
    (sign_result : Option String) : Except IssueErr String × Election :=
  let parsed : Except IssueErr String :=
    if startsWithNpub voter_pk then
      match kc.parseNpub voter_pk with
      | some h => Except.ok h
      | none => Except.error IssueErr.invalidNpub
    else
      match kc.parseHex voter_pk with
      | some h => Except.ok h
      | none => Except.error IssueErr.invalidHex
  match parsed with
  | Except.error err => (Except.error err, e)
  | Except.ok hex_pubkey =>
      if hex_pubkey ∈ e.authorized_voters then
        let e2 := { e with authorized_voters := e.authorized_voters.erase hex_pubkey }
        match sign_result with
        | some sig => (Except.ok sig, e2)
        | none => (Except.error IssueErr.signingError, e2)
      else
        (Except.error IssueErr.unauthorized, e)

/-- `Election::receive_vote` from src/ec/src/election.rs: requires
`InProgress`, rejects a duplicate `h_n`, otherwise records the token and
appends the vote. -/
def receive_vote (e : Election) (h_n : Nat) (vote : Nat) :
    Except VoteErr Unit × Election :=
  if e.status ≠ Status.InProgress then (Except.error VoteErr.notInProgress, e)
  else if h_n ∈ e.used_tokens then (Except.error VoteErr.duplicate, e)
  else
    (Except.ok (),
      { e with used_tokens := insert h_n e.used_tokens, votes := e.votes ++ [vote] })

/-- `Election::should_be_in_progress` from src/ec/src/election.rs. -/
def should_be_in_progress (e : Election) (now : Nat) : Bool :=
  decide (e.start_time ≤ now) && decide (now < e.end_time) && decide (e.status = Status.Open)

/-- `Election::should_be_finished` from src/ec/src/election.rs. -/
def should_be_finished (e : Election) (now : Nat) : Bool :=
  decide (e.end_time ≤ now)
    && (decide (e.status = Status.Open) || decide (e.status = Status.InProgress))

/-- The status `Election::update_status_based_on_time` leaves in `self`. -/
def next_status (e : Election) (now : Nat) : Status :=
  if should_be_finished e now then Status.Finished
  else if should_be_in_progress e now then Status.InProgress
  else e.status

/-- `Election::update_status_based_on_time` from src/ec/src/election.rs:
updates the status and reports whether it changed. -/
def update_status_based_on_time (e : Election) (now : Nat) : Bool × Election :=
  (decide (e.status ≠ next_status e now), { e with status := next_status e now })

/-- Modelled from the spec (§4.1, claim C4 wording): the target status as
the claim states it, to be compared with `next_status` from the source. -/
def claimedNextStatus (e : Election) (now : Nat) : Status :=
  if e.end_time ≤ now ∧ (e.status = Status.Open ∨ e.status = Status.InProgress) then
    Status.Finished
  else if e.start_time ≤ now ∧ e.status = Status.Open then Status.InProgress
  else e.status

/-- One `counts.entry(c).or_insert(0) += 1` step of `Election::tally`, on
an association-list model of the `HashMap<Candidate, u32>`. -/
def bump : List (Candidate × Nat) → Candidate → List (Candidate × Nat)
  | [], c => [(c, 1)]
  | (k, n) :: rest, c =>
      if k = c then (k, n + 1) :: rest else (k, n) :: bump rest c

/-- The vote loop of `Election::tally`: each vote byte is looked up among
the candidates by id; matches bump the count, non-matches are skipped. -/
def tallyAux (cands : List Candidate) : List Nat → List (Candidate × Nat) → List (Candidate × Nat)
  | [], m => m
  | v :: vs, m =>
      match cands.find? (fun c => c.id == v) with
      | some c => tallyAux cands vs (bump m c)
      | none => tallyAux cands vs m

/-- `Election::tally` from src/ec/src/election.rs, as an association list. -/
def tally (e : Election) : List (Candidate × Nat) :=
  tallyAux e.candidates e.votes []

/-- Lookup in the tally map; absent candidates count 0 (the `HashMap`
read with default). -/
def tallyGet : List (Candidate × Nat) → Candidate → Nat
  | [], _ => 0
  | (k, n) :: rest, c => if k = c then n else tallyGet rest c

/-- One externally triggered mutation of an election between votes: an
admin status write, a `receive_vote` call, or a status-clock tick. -/
inductive VoteOp
  | setStatus (s : Status)
  | vote (h_n : Nat) (v : Nat)
  | tick (now : Nat)

/-- Apply one `VoteOp`. -/
def applyOp (e : Election) : VoteOp → Election
  | VoteOp.setStatus s => { e with status := s }
  | VoteOp.vote h_n v => (receive_vote e h_n v).2
  | VoteOp.tick now => (update_status_based_on_time e now).2

/-- Run a sequence of `VoteOp`s from an initial election. -/
def runOps : Election → List VoteOp → Election
  | e, [] => e
  | e, op :: ops => runOps (applyOp e op) ops

/-- A trivial key codec for concrete instances: every string is its own
normal form. -/
def idCodec : KeyCodec :=
  { parseNpub := fun s => some s, parseHex := fun s => some s }

/-- A concrete election used in counterexamples and witnesses. -/
def sampleElection (st : Status) : Election :=
  { id := "1b3c"
    name := "Sample"
    authorized_voters := {"k"}
    used_tokens := ∅
    votes := []
    candidates := [⟨1, "Alice"⟩, ⟨2, "Bob"⟩]
    start_time := 1000
    end_time := 4600
    status := st
    rsa_pub_key := "key" }

/-- A key codec in which a bech32 string and a hex string both denote the
same key `k`: a concrete stand-in for one real keypair in two encodings. -/
def constCodec : KeyCodec :=
  { parseNpub := fun _ => some "k", parseHex := fun _ => some "k" }

theorem next_status_eq_claimed (e : Election) (now : Nat) :
    next_status e now = claimedNextStatus e now := by
  by_cases h1 : e.end_time ≤ now <;> by_cases h2 : e.start_time ≤ now <;>
    by_cases h3 : now < e.end_time <;> cases hs : e.status <;>
      simp [next_status, claimedNextStatus, should_be_finished, should_be_in_progress,
        h1, h2, h3, hs] <;> omega

/-- C4: for every election and every time `now`, `update_status_based_on_time`
sets the status to Finished if `now ≥ end_time` and the status is Open or
InProgress, otherwise to InProgress if `now ≥ start_time` and the status is
Open, otherwise leaves it unchanged; the returned flag is true exactly when
the status changed. -/
theorem C4_update_status_spec (e : Election) (now : Nat) :
    (update_status_based_on_time e now).2 = { e with status := claimedNextStatus e now } ∧
    ((update_status_based_on_time e now).1 = true ↔ claimedNextStatus e now ≠ e.status) := by
  constructor
  · simp [update_status_based_on_time, next_status_eq_claimed]
  · simp [update_status_based_on_time, next_status_eq_claimed]
    exact ne_comm

/-- C5: cancellation is terminal: once the status is Canceled, any call to
`update_status_based_on_time`, at any time, leaves the election unchanged
and reports no change. -/
theorem C5_cancel_terminal (e : Election) (now : Nat) (h : e.status = Status.Canceled) :
    update_status_based_on_time e now = (false, e) := by
  have hn : next_status e now = e.status := by
    simp [next_status, should_be_finished, should_be_in_progress, h]
  simp [update_status_based_on_time, hn]

/-- Witness for C5 at a concrete canceled election and a time past its end. -/
theorem C5_cancel_terminal_witness :
    update_status_based_on_time (sampleElection Status.Canceled) 999999 =
      (false, sampleElection Status.Canceled) :=
  C5_cancel_terminal (sampleElection Status.Canceled) 999999 rfl

/-- C1 is false on the code: `issue_token` never consults the election
status.  At a concrete Finished election with a still-authorized voter it
returns a blind signature (not an error) and removes the voter. -/
theorem C1_issue_token_checks_status_counterexample :
    (sampleElection Status.Finished).status = Status.Finished ∧
    (issue_token idCodec (sampleElection Status.Finished) "k" (some "s")).1 = Except.ok "s" ∧
    (issue_token idCodec (sampleElection Status.Finished) "k" (some "s")).2.authorized_voters ≠
      (sampleElection Status.Finished).authorized_voters := by
  refine ⟨rfl, rfl, ?_⟩
  decide

/-- C1 amended: `issue_token` ignores the election status entirely — its
result and its effect on the election are independent of the status field,
so Finished and Canceled elections behave exactly like Open ones. -/
theorem C1_issue_token_status_independent (kc : KeyCodec) (e : Election)
    (pk : String) (sr : Option String) (s : Status) :
    (issue_token kc { e with status := s } pk sr).1 = (issue_token kc e pk sr).1 ∧
    (issue_token kc { e with status := s } pk sr).2 =
      { (issue_token kc e pk sr).2 with status := s } := by
  cases hb : startsWithNpub pk
  · cases hx : kc.parseHex pk with
    | none => simp [issue_token, hb, hx]
    | some h =>
        by_cases hm : h ∈ e.authorized_voters <;> cases sr <;>
          simp [issue_token, hb, hx, hm]
  · cases hx : kc.parseNpub pk with
    | none => simp [issue_token, hb, hx]
    | some h =>
        by_cases hm : h ∈ e.authorized_voters <;> cases sr <;>
          simp [issue_token, hb, hx, hm]

/-- C2: `issue_token` fails with `unauthorized` exactly when the normalized
key is not in `authorized_voters`; a failed request leaves the election
unchanged; a request from a present voter removes the key, whether or not
signing (`sr`) succeeds — the voter is never restored. -/
theorem C2_issue_token_single_use (kc : KeyCodec) (e : Election) (pk : String)
    (sr : Option String) (h : String) (hn : normalizeKey kc pk = some h) :
    ((issue_token kc e pk sr).1 = Except.error IssueErr.unauthorized ↔
      h ∉ e.authorized_voters) ∧
    (h ∉ e.authorized_voters → (issue_token kc e pk sr).2 = e) ∧
    (h ∈ e.authorized_voters →
      (issue_token kc e pk sr).2.authorized_voters = e.authorized_voters.erase h) := by
  unfold normalizeKey at hn
  cases hb : startsWithNpub pk
  · rw [hb] at hn
    simp only [Bool.false_eq_true, if_false] at hn
    by_cases hm : h ∈ e.authorized_voters <;> cases sr <;>
      simp [issue_token, hb, hn, hm]
  · rw [hb] at hn
    simp only [if_true] at hn
    by_cases hm : h ∈ e.authorized_voters <;> cases sr <;>
      simp [issue_token, hb, hn, hm]

/-- Witness for C2: a concrete authorized voter, with signing failing
(`none`), is still removed from the authorized set. -/
theorem C2_issue_token_single_use_witness :
    normalizeKey idCodec "k" = some "k" ∧
    (issue_token idCodec (sampleElection Status.Open) "k" none).2.authorized_voters =
      (sampleElection Status.Open).authorized_voters.erase "k" :=
  ⟨by decide,
    (C2_issue_token_single_use idCodec (sampleElection Status.Open) "k" none "k"
      (by decide)).2.2 (by decide)⟩

/-- C3: `receive_vote` succeeds exactly when the status is InProgress and
`h_n` is fresh; success records the token and appends the vote; the two
failure modes return `notInProgress` and `duplicate` respectively and
leave the election untouched. -/
theorem C3_receive_vote_spec (e : Election) (h_n v : Nat) :
    ((receive_vote e h_n v).1 = Except.ok () ↔
      e.status = Status.InProgress ∧ h_n ∉ e.used_tokens) ∧
    (e.status ≠ Status.InProgress →
      (receive_vote e h_n v).1 = Except.error VoteErr.notInProgress) ∧
    (e.status = Status.InProgress → h_n ∈ e.used_tokens →
      (receive_vote e h_n v).1 = Except.error VoteErr.duplicate) ∧
    (e.status = Status.InProgress → h_n ∉ e.used_tokens →
      (receive_vote e h_n v).2 =
        { e with used_tokens := insert h_n e.used_tokens, votes := e.votes ++ [v] }) ∧
    ((receive_vote e h_n v).1 ≠ Except.ok () → (receive_vote e h_n v).2 = e) := by
  by_cases hs : e.status = Status.InProgress <;> by_cases hm : h_n ∈ e.used_tokens <;>
    simp [receive_vote, hs, hm]

/-- Witness for C3: a fresh vote in an InProgress election is accepted; a
vote in an Open election is refused as not-in-progress. -/
theorem C3_receive_vote_spec_witness :
    (receive_vote (sampleElection Status.InProgress) 5 1).1 = Except.ok () ∧
    (receive_vote (sampleElection Status.Open) 5 1).1 =
      Except.error VoteErr.notInProgress :=
  ⟨(C3_receive_vote_spec (sampleElection Status.InProgress) 5 1).1.mpr ⟨rfl, by decide⟩,
    (C3_receive_vote_spec (sampleElection Status.Open) 5 1).2.1 (by decide)⟩

/-- C8: voter registration is gated on Open status, invariant under the
input encoding of the key, and idempotent. -/
theorem C8_register_voter_normalization :
    (∀ (kc : KeyCodec) (e : Election) (pk : String),
      e.status ≠ Status.Open → register_voter kc e pk = e) ∧
    (∀ (kc : KeyCodec) (e : Election) (pkA pkB h : String),
      normalizeKey kc pkA = some h → normalizeKey kc pkB = some h →
      register_voter kc e pkA = register_voter kc e pkB) ∧
    (∀ (kc : KeyCodec) (e : Election) (pk : String),
      register_voter kc (register_voter kc e pk) pk = register_voter kc e pk) := by
  refine ⟨?_, ?_, ?_⟩
  · intro kc e pk h
    unfold register_voter
    rw [if_pos h]
  · intro kc e pkA pkB h h1 h2
    by_cases hs : e.status = Status.Open
    · simp [register_voter, hs, h1, h2]
    · simp [register_voter, hs]
  · intro kc e pk
    by_cases hs : e.status = Status.Open
    · cases hnk : normalizeKey kc pk with
      | none => simp [register_voter, hs, hnk]
      | some h =>
          by_cases hm : h ∈ e.authorized_voters
          · simp [register_voter, hs, hnk, hm]
          · simp [register_voter, hs, hnk, hm]
    · simp [register_voter, hs]

/-- Witness for C8: a non-Open election refuses registration, and the
bech32 and hex encodings of one key register identically. -/
theorem C8_register_voter_normalization_witness :
    register_voter idCodec (sampleElection Status.InProgress) "k2" =
      sampleElection Status.InProgress ∧
    register_voter constCodec (sampleElection Status.Open) "npubX" =
      register_voter constCodec (sampleElection Status.Open) "dead" :=
  ⟨C8_register_voter_normalization.1 idCodec (sampleElection Status.InProgress) "k2"
      (by decide),
    C8_register_voter_normalization.2.1 constCodec (sampleElection Status.Open)
      "npubX" "dead" "k" (by decide) (by decide)⟩

theorem applyOp_inv (e : Election) (op : VoteOp)
    (h : e.votes.length = e.used_tokens.card) :
    (applyOp e op).votes.length = (applyOp e op).used_tokens.card := by
  cases op with
  | setStatus s => simpa [applyOp]
  | tick now => simpa [applyOp, update_status_based_on_time]
  | vote h_n v =>
      by_cases hs : e.status = Status.InProgress
      · by_cases hm : h_n ∈ e.used_tokens
        · simpa [applyOp, receive_vote, hs, hm]
        · simp [applyOp, receive_vote, hs, hm, Finset.card_insert_of_not_mem hm, h]
      · simpa [applyOp, receive_vote, hs]

theorem applyOp_mono (e : Election) (op : VoteOp) :
    e.used_tokens ⊆ (applyOp e op).used_tokens := by
  cases op with
  | setStatus s => exact Finset.Subset.refl _
  | tick now => exact Finset.Subset.refl _
  | vote h_n v =>
      by_cases hs : e.status = Status.InProgress
      · by_cases hm : h_n ∈ e.used_tokens
        · simp [applyOp, receive_vote, hs, hm]
        · simp only [applyOp, receive_vote, hs]
          simp [hm, Finset.subset_insert]
      · simp [applyOp, receive_vote, hs]

theorem runOps_inv (ops : List VoteOp) :
    ∀ e : Election, e.votes.length = e.used_tokens.card →
      (runOps e ops).votes.length = (runOps e ops).used_tokens.card := by
  induction ops with
  | nil => intro e h; exact h
  | cons op ops ih => intro e h; exact ih (applyOp e op) (applyOp_inv e op h)

theorem runOps_mono (ops : List VoteOp) :
    ∀ e : Election, e.used_tokens ⊆ (runOps e ops).used_tokens := by
  induction ops with
  | nil => intro e; exact Finset.Subset.refl _
  | cons op ops ih =>
      intro e
      exact Finset.Subset.trans (applyOp_mono e op) (ih (applyOp e op))

/-- C7: from a freshly created election, along any sequence of status
writes, `receive_vote` calls and clock ticks, the number of stored votes
equals the number of distinct accepted tokens, and the used-token set only
ever grows. -/
theorem C7_no_double_vote :
    (∀ (id nm : String) (cs : List Candidate) (st du : Nat) (k : String)
        (ops : List VoteOp),
      (runOps (Election.new id nm cs st du k) ops).votes.length =
        (runOps (Election.new id nm cs st du k) ops).used_tokens.card) ∧
    (∀ (e : Election) (ops : List VoteOp),
      e.used_tokens ⊆ (runOps e ops).used_tokens) := by
  constructor
  · intro id nm cs st du k ops
    exact runOps_inv ops (Election.new id nm cs st du k) (by simp [Election.new])
  · intro e ops
    exact runOps_mono ops e

/-- C9 is false on the code: the derived `PartialEq` of `Candidate`
compares the name as well, so two candidates with the same id but
different names are not equal. -/
theorem C9_candidate_eq_by_id_counterexample :
    (Candidate.mk 1 "Alice").id = (Candidate.mk 1 "Bob").id ∧
    candidateEqb (Candidate.mk 1 "Alice") (Candidate.mk 1 "Bob") = false ∧
    Candidate.mk 1 "Alice" ≠ Candidate.mk 1 "Bob" := by
  decide

/-- C9 amended: `Candidate` equality is structural — two candidates are
equal exactly when both their ids and their names agree. -/
theorem C9_candidate_eq_structural (c1 c2 : Candidate) :
    candidateEqb c1 c2 = true ↔ c1.id = c2.id ∧ c1.name = c2.name := by
  simp [candidateEqb]

/-- C10: restoring an election never fails on a bad status — any
unrecognized status string yields `Open` — and the restored used-token set
holds exactly the values of the token strings that parse as hex; the rest
are dropped. -/
theorem C10_from_database_robust (er : ElectionRecord) (crs : List CandidateRecord)
    (avs uts : List String)
    (h1 : er.status ≠ "open") (h2 : er.status ≠ "in-progress")
    (h3 : er.status ≠ "finished") (h4 : er.status ≠ "canceled") :
    (from_database er crs avs uts).status = Status.Open ∧
    ∀ n : Nat,
      n ∈ (from_database er crs avs uts).used_tokens ↔
        ∃ t ∈ uts, parseHexNat t = some n := by
  constructor
  · simp [from_database, parseStatus, h1, h2, h3, h4]
  · intro n
    simp [from_database, List.mem_toFinset, List.mem_filterMap]

/-- Witness for C10: a record with status string `bogus` restores to Open,
the unparseable token `zz` is dropped and `ff` is kept as 255. -/
theorem C10_from_database_robust_witness :
    (from_database
        { id := "e1", name := "N", start_time := 0, end_time := 10,
          status := "bogus", rsa_pub_key := "r", created_at := 0, updated_at := 0 }
        [] [] ["zz", "ff"]).status = Status.Open ∧
    (255 ∈ (from_database
        { id := "e1", name := "N", start_time := 0, end_time := 10,
          status := "bogus", rsa_pub_key := "r", created_at := 0, updated_at := 0 }
        [] [] ["zz", "ff"]).used_tokens) :=
  ⟨(C10_from_database_robust _ [] [] ["zz", "ff"]
      (by decide) (by decide) (by decide) (by decide)).1,
    ((C10_from_database_robust _ [] [] ["zz", "ff"]
      (by decide) (by decide) (by decide) (by decide)).2 255).mpr
      ⟨"ff", by decide, by decide⟩⟩

theorem tallyGet_bump_self (m : List (Candidate × Nat)) (c : Candidate) :
    tallyGet (bump m c) c = tallyGet m c + 1 := by
  induction m with
  | nil => simp [bump, tallyGet]
  | cons kn rest ih =>
      obtain ⟨k, n⟩ := kn
      by_cases h : k = c
      · simp [bump, tallyGet, h]
      · simp [bump, tallyGet, h, ih]

theorem tallyGet_bump_ne (m : List (Candidate × Nat)) (c c' : Candidate)
    (h : c' ≠ c) :
    tallyGet (bump m c) c' = tallyGet m c' := by
  induction m with
  | nil =>
      have hcc : c ≠ c' := fun hh => h hh.symm
      simp [bump, tallyGet, hcc]
  | cons kn rest ih =>
      obtain ⟨k, n⟩ := kn
      by_cases hk : k = c
      · have hcc' : c ≠ c' := fun hh => h hh.symm
        simp [bump, tallyGet, hk, hcc']
      · simp [bump, tallyGet, hk, ih]

theorem sum_map_bump (cs : List Candidate) (m : List (Candidate × Nat))
    (c : Candidate) (hmem : c ∈ cs)
    (hp : cs.Pairwise (fun a b => a.id ≠ b.id)) :
    (cs.map (tallyGet (bump m c))).sum = (cs.map (tallyGet m)).sum + 1 := by
  induction cs with
  | nil => cases hmem
  | cons a rest ih =>
      rw [List.pairwise_cons] at hp
      obtain ⟨ha, hrest⟩ := hp
      by_cases hac : a = c
      · subst hac
        have hne : ∀ b ∈ rest, tallyGet (bump m a) b = tallyGet m b := by
          intro b hb
          exact tallyGet_bump_ne m a b (fun heq => ha b hb (by rw [heq]))
        rw [List.map_cons, List.map_cons, List.sum_cons, List.sum_cons,
          tallyGet_bump_self, List.map_congr_left hne]
        omega
      · have hc : c ∈ rest := by
          rcases List.mem_cons.mp hmem with h | h
          · exact absurd h.symm hac
          · exact h
        have hrec := ih hc hrest
        rw [List.map_cons, List.map_cons, List.sum_cons, List.sum_cons,
          tallyGet_bump_ne m c a hac, hrec]
        omega

theorem tallyAux_sum (cands : List Candidate)
    (hp : cands.Pairwise (fun a b => a.id ≠ b.id)) :
    ∀ (vs : List Nat) (m : List (Candidate × Nat)),
      (cands.map (tallyGet (tallyAux cands vs m))).sum =
        (cands.map (tallyGet m)).sum +
          (vs.filter (fun v => cands.any (fun c => c.id == v))).length := by
  intro vs
  induction vs with
  | nil => intro m; simp [tallyAux]
  | cons v vs ih =>
      intro m
      cases hf : cands.find? (fun c => c.id == v) with
      | some c =>
          have hmem := List.mem_of_find?_eq_some hf
          have hpc := List.find?_some hf
          have hmatch : cands.any (fun c => c.id == v) = true :=
            List.any_eq_true.mpr ⟨c, hmem, hpc⟩
          simp only [tallyAux, hf, List.filter_cons, hmatch, if_true, List.length_cons]
          rw [ih (bump m c), sum_map_bump cands m c hmem hp]
          omega
      | none =>
          have hmatch : cands.any (fun c => c.id == v) = false :=
            List.any_eq_false.mpr (List.find?_eq_none.mp hf)
          simp only [tallyAux, hf, List.filter_cons, hmatch, Bool.false_eq_true,
            if_false]
          exact ih m

theorem tallyAux_filter (cands : List Candidate) :
    ∀ (vs : List Nat) (m : List (Candidate × Nat)),
      tallyAux cands vs m =
        tallyAux cands (vs.filter (fun v => cands.any (fun c => c.id == v))) m := by
  intro vs
  induction vs with
  | nil => intro m; rfl
  | cons v vs ih =>
      intro m
      cases hf : cands.find? (fun c => c.id == v) with
      | some c =>
          have hmem := List.mem_of_find?_eq_some hf
          have hpc := List.find?_some hf
          have hmatch : cands.any (fun c => c.id == v) = true :=
            List.any_eq_true.mpr ⟨c, hmem, hpc⟩
          simp only [tallyAux, hf, List.filter_cons, hmatch, if_true]
          exact ih (bump m c)
      | none =>
          have hmatch : cands.any (fun c => c.id == v) = false :=
            List.any_eq_false.mpr (List.find?_eq_none.mp hf)
          simp only [tallyAux, hf, List.filter_cons, hmatch, Bool.false_eq_true,
            if_false]
          exact ih m

/-- C6: for an election with pairwise-distinct candidate ids, the tally
counts sum to the number of votes naming some candidate, and votes naming
no candidate are silently ignored (the tally of the votes equals the tally
of the matching votes alone). -/
theorem C6_tally_soundness (e : Election)
    (hp : e.candidates.Pairwise (fun a b => a.id ≠ b.id)) :
    (e.candidates.map (tallyGet (tally e))).sum =
      (e.votes.filter (fun v => e.candidates.any (fun c => c.id == v))).length ∧
    tally e =
      tally { e with
        votes := e.votes.filter (fun v => e.candidates.any (fun c => c.id == v)) } := by
  constructor
  · rw [tally, tallyAux_sum e.candidates hp e.votes []]
    have h0 : ∀ c ∈ e.candidates, tallyGet [] c = 0 := fun c _ => rfl
    rw [List.map_congr_left h0]
    simp
  · exact tallyAux_filter e.candidates e.votes []

/-- Witness for C6 at a concrete election with votes [1, 2, 1, 7], where 7
names no candidate: the counts sum to the 3 matching votes. -/
theorem C6_tally_soundness_witness :
    ({ sampleElection Status.Finished with votes := [1, 2, 1, 7] } :
        Election).candidates.Pairwise (fun a b => a.id ≠ b.id) ∧
    (({ sampleElection Status.Finished with votes := [1, 2, 1, 7] } :
        Election).candidates.map
      (tallyGet (tally { sampleElection Status.Finished with votes := [1, 2, 1, 7] }))).sum =
      (({ sampleElection Status.Finished with votes := [1, 2, 1, 7] } :
          Election).votes.filter
        (fun v => ({ sampleElection Status.Finished with votes := [1, 2, 1, 7] } :
            Election).candidates.any (fun c => c.id == v))).length :=
  ⟨by decide,
    (C6_tally_soundness { sampleElection Status.Finished with votes := [1, 2, 1, 7] }
      (by decide)).1⟩

end Criptocracia
